import Mathlib

/-!
Verification development for the APOD imagery batch embedding-and-classification
pipeline.  Each Python function of the repository that the properties below are
about is shallowly embedded as an executable Lean definition; machine floats are
modelled as rationals, fallible Python code (raised exceptions) as `Except`,
and the filesystem as explicit functional state.
-/

namespace Apod

/-! ## Evaluation metrics (src/src/utils/metrics.py)

Python raises `ValueError` on a length mismatch and `ZeroDivisionError` when the
final division divides by a zero item count; both are modelled as `Except.error`.
-/

/-- Embedding of the body of the `try`: `predictions[i].index(ground_truth[i]) + 1`
gives the 1-based rank of the first occurrence, `ValueError` (absence) yields a
contribution of `0` via the `except` arm. -/
def reciprocalRank (p : List String) (g : String) : Rat :=
  match p.findIdx? (fun x => x == g) with
  | some i => 1 / ((i : Rat) + 1)
  | none => 0

/-- Embedding of `calculate_mrr` from src/src/utils/metrics.py. -/
def calculate_mrr (predictions : List (List String)) (ground_truth : List String) :
    Except String Rat :=
  if predictions.length ≠ ground_truth.length then
    Except.error "Predictions and ground truth lists must have the same length."
  else
    let reciprocal_ranks := (predictions.zip ground_truth).map fun pg => reciprocalRank pg.1 pg.2
    if reciprocal_ranks.length = 0 then
      Except.error "ZeroDivisionError: division by zero"
    else
      Except.ok (reciprocal_ranks.sum / (reciprocal_ranks.length : Rat))

/-- Embedding of `calculate_top_n_accuracy` from src/src/utils/metrics.py:
`ground_truth[i] in predictions[i][:n]` counted over all items, divided by
`len(predictions)`. -/
def calculate_top_n_accuracy (predictions : List (List String)) (ground_truth : List String)
    (n : Nat) : Except String Rat :=
  if predictions.length ≠ ground_truth.length then
    Except.error "Predictions and ground truth lists must have the same length."
  else
    let correct_predictions :=
      ((predictions.zip ground_truth).filter fun pg => (pg.1.take n).contains pg.2).length
    if predictions.length = 0 then
      Except.error "ZeroDivisionError: division by zero"
    else
      Except.ok ((correct_predictions : Rat) / (predictions.length : Rat))

/-- Embedding of the inner loop of `calculate_precision_at_k`:
`for j in range(min(k, len(predictions[i]))): if predictions[i][j] == ground_truth[i]:
relevant_in_top_k = 1; break`. -/
def relevant_in_top_k (p : List String) (g : String) (k : Nat) : Nat :=
  match k, p with
  | 0, _ => 0
  | _ + 1, [] => 0
  | k + 1, x :: xs => if x == g then 1 else relevant_in_top_k xs g k

/-- Embedding of `calculate_precision_at_k` from src/src/utils/metrics.py. -/
def calculate_precision_at_k (predictions : List (List String)) (ground_truth : List String)
    (k : Nat) : Except String Rat :=
  if predictions.length ≠ ground_truth.length then
    Except.error "Predictions and ground truth lists must have the same length."
  else
    let precision_scores := (predictions.zip ground_truth).map fun pg =>
      relevant_in_top_k pg.1 pg.2 k
    if precision_scores.length = 0 then
      Except.error "ZeroDivisionError: division by zero"
    else
      Except.ok (((precision_scores.sum : Nat) : Rat) / (precision_scores.length : Rat))

/-! Helper lemmas about the metric bodies. -/

lemma relevant_in_top_k_eq (g : String) :
    ∀ (k : Nat) (p : List String),
      relevant_in_top_k p g k = if (p.take k).contains g then 1 else 0 := by
  intro k
  induction k with
  | zero => intro p; simp [relevant_in_top_k]
  | succ k ih =>
    intro p
    cases p with
    | nil => simp [relevant_in_top_k]
    | cons x xs =>
      by_cases hx : x == g
      · have hgx : g = x := (beq_iff_eq.mp hx).symm
        simp [relevant_in_top_k, hx, hgx]
      · have hgx : ¬(g = x) := fun h => hx (beq_iff_eq.mpr h.symm)
        simp [relevant_in_top_k, hx, ih xs, hgx]

lemma sum_ite_eq_length_filter (l : List (List String × String)) (n : Nat) :
    (l.map fun pg => relevant_in_top_k pg.1 pg.2 n).sum =
      (l.filter fun pg => (pg.1.take n).contains pg.2).length := by
  induction l with
  | nil => rfl
  | cons a l ih =>
    rw [List.map_cons, List.sum_cons, List.filter_cons, relevant_in_top_k_eq, ih]
    by_cases h : (a.1.take n).contains a.2
    · simp only [h, if_true, List.length_cons]
      omega
    · simp only [h, if_false, Bool.false_eq_true]
      omega

lemma reciprocalRank_of_not_mem {p : List String} {g : String} (h : g ∉ p) :
    reciprocalRank p g = 0 := by
  unfold reciprocalRank
  have hfind : p.findIdx? (fun x => x == g) = none := by
    rw [List.findIdx?_eq_none_iff]
    intro x hx
    simp only [beq_eq_false_iff_ne, ne_eq]
    intro hxg
    exact h (hxg ▸ hx)
  rw [hfind]

/-- C7 counterexample: on the empty (equal-length) pair, where the true label is
vacuously absent from every prediction list, `calculate_mrr` does not return the
number `0.0` — the unguarded division `sum/len` raises `ZeroDivisionError`
(modelled as `Except.error`), contradicting the claim that no exception is raised. -/
theorem calculate_mrr_empty_input_raises :
    calculate_mrr ([] : List (List String)) ([] : List String) =
      Except.error "ZeroDivisionError: division by zero" := by
  rfl

/-- C7 (amended): for every pair of equal-length, NON-EMPTY prediction and
ground-truth lists, `calculate_mrr` returns a value (no exception), and when the
true label is absent from every prediction list that value is exactly `0`. -/
theorem calculate_mrr_nonempty_absent (predictions : List (List String))
    (ground_truth : List String) (hlen : predictions.length = ground_truth.length)
    (hne : predictions ≠ []) :
    (∃ v, calculate_mrr predictions ground_truth = Except.ok v) ∧
    ((∀ pg ∈ predictions.zip ground_truth, pg.2 ∉ pg.1) →
      calculate_mrr predictions ground_truth = Except.ok 0) := by
  have hzlen : (predictions.zip ground_truth).length = predictions.length := by
    simp [List.length_zip, hlen]
  have hlen0 : predictions.length ≠ 0 := by
    simpa [List.length_eq_zero] using hne
  unfold calculate_mrr
  rw [if_neg (not_not_intro hlen)]
  simp only [hzlen, List.length_map]
  rw [if_neg (by simpa using hlen0)]
  constructor
  · exact ⟨_, rfl⟩
  · intro habs
    have hsum : ((predictions.zip ground_truth).map fun pg => reciprocalRank pg.1 pg.2).sum = 0 := by
      apply List.sum_eq_zero
      intro x hx
      rcases List.mem_map.mp hx with ⟨pg, hpg, rfl⟩
      exact reciprocalRank_of_not_mem (habs pg hpg)
    rw [hsum, zero_div]

/-- C7 witness: the amended theorem applied at a concrete non-empty input whose
true labels are absent from every ranked list. -/
theorem calculate_mrr_nonempty_absent_witness :
    (∃ v, calculate_mrr [["a"], ["b"]] ["x", "y"] = Except.ok v) ∧
    ((∀ pg ∈ ([["a"], ["b"]] : List (List String)).zip ["x", "y"], pg.2 ∉ pg.1) →
      calculate_mrr [["a"], ["b"]] ["x", "y"] = Except.ok 0) :=
  calculate_mrr_nonempty_absent [["a"], ["b"]] ["x", "y"] (by decide) (by decide)

/-- C8: for equal-length non-empty inputs and `k ≥ 1`, `calculate_precision_at_k`
returns the same value as `calculate_top_n_accuracy` with `n = k`: per item the
score is 1 exactly when the single true label occurs within the first `k` ranked
predictions. -/
theorem calculate_precision_at_k_eq_top_n_accuracy (predictions : List (List String))
    (ground_truth : List String) (k : Nat)
    (hlen : predictions.length = ground_truth.length) (hne : predictions ≠ [])
    (hk : 1 ≤ k) :
    calculate_precision_at_k predictions ground_truth k =
      calculate_top_n_accuracy predictions ground_truth k := by
  have hzlen : (predictions.zip ground_truth).length = predictions.length := by
    simp [List.length_zip, hlen]
  have hlen0 : predictions.length ≠ 0 := by
    simpa [List.length_eq_zero] using hne
  unfold calculate_precision_at_k calculate_top_n_accuracy
  rw [if_neg (not_not_intro hlen), if_neg (not_not_intro hlen)]
  simp only [List.length_map, hzlen]
  rw [if_neg (by simpa using hlen0), if_neg (by simpa using hlen0)]
  congr 1
  rw [sum_ite_eq_length_filter]

/-- C8 witness: the equivalence applied at a concrete input. -/
theorem calculate_precision_at_k_eq_top_n_accuracy_witness :
    calculate_precision_at_k [["b", "a"], ["c"]] ["a", "a"] 2 =
      calculate_top_n_accuracy [["b", "a"], ["c"]] ["a", "a"] 2 :=
  calculate_precision_at_k_eq_top_n_accuracy [["b", "a"], ["c"]] ["a", "a"] 2
    (by decide) (by decide) (by decide)

/-- C10: each metric leaves its final division unguarded: on empty equal-length
inputs it fails with a division-by-zero error rather than returning a number,
and it returns a value exactly when the input lists are non-empty. -/
theorem metrics_division_unguarded (predictions : List (List String))
    (ground_truth : List String) (n k : Nat)
    (hlen : predictions.length = ground_truth.length) :
    (predictions = [] →
      calculate_top_n_accuracy predictions ground_truth n =
          Except.error "ZeroDivisionError: division by zero" ∧
      calculate_mrr predictions ground_truth =
          Except.error "ZeroDivisionError: division by zero" ∧
      calculate_precision_at_k predictions ground_truth k =
          Except.error "ZeroDivisionError: division by zero") ∧
    (predictions ≠ [] →
      (∃ a, calculate_top_n_accuracy predictions ground_truth n = Except.ok a) ∧
      (∃ b, calculate_mrr predictions ground_truth = Except.ok b) ∧
      (∃ c, calculate_precision_at_k predictions ground_truth k = Except.ok c)) := by
  have hzlen : (predictions.zip ground_truth).length = predictions.length := by
    simp [List.length_zip, hlen]
  constructor
  · intro hp
    subst hp
    have hg : ground_truth = [] := by
      simpa [List.length_eq_zero] using hlen.symm
    subst hg
    refine ⟨rfl, rfl, rfl⟩
  · intro hne
    have hlen0 : predictions.length ≠ 0 := by
      simpa [List.length_eq_zero] using hne
    unfold calculate_top_n_accuracy calculate_mrr calculate_precision_at_k
    rw [if_neg (not_not_intro hlen), if_neg (not_not_intro hlen),
      if_neg (not_not_intro hlen)]
    simp only [List.length_map, hzlen]
    rw [if_neg (by simpa using hlen0), if_neg (by simpa using hlen0),
      if_neg (by simpa using hlen0)]
    exact ⟨⟨_, rfl⟩, ⟨_, rfl⟩, ⟨_, rfl⟩⟩

/-- C10 witness: evaluated at the empty pair, the three metrics all raise the
division-by-zero error. -/
theorem metrics_division_unguarded_witness :
    (([] : List (List String)) = [] →
      calculate_top_n_accuracy [] ([] : List String) 1 =
          Except.error "ZeroDivisionError: division by zero" ∧
      calculate_mrr [] ([] : List String) =
          Except.error "ZeroDivisionError: division by zero" ∧
      calculate_precision_at_k [] ([] : List String) 1 =
          Except.error "ZeroDivisionError: division by zero") ∧
    (([] : List (List String)) ≠ [] →
      (∃ a, calculate_top_n_accuracy [] ([] : List String) 1 = Except.ok a) ∧
      (∃ b, calculate_mrr [] ([] : List String) = Except.ok b) ∧
      (∃ c, calculate_precision_at_k [] ([] : List String) 1 = Except.ok c)) :=
  metrics_division_unguarded [] [] 1 1 (by decide)

/-! ## Embedding-similarity classifier (src/python/src/ml_models/fastclassifier.py)

`FastClassifier.classify_embedding_method` encodes texts and labels with a
sentence-transformer and ranks labels by cosine similarity.  The spec treats the
embedding model as a black box, so the composite `cosine_similarity(encode text,
encode label)` is abstracted as a `similarity` function; similarity values are
modelled as rationals.  `np.argsort(scores)` (ascending, a stable sort
refinement) followed by `[::-1]` is embedded as insertion sort over the score
positions followed by `List.reverse`. -/

/-- Embedding of `np.argsort(scores)`: the positions `0..len-1` sorted ascending
by score. -/
def argsort (scores : List Rat) : List Nat :=
  List.insertionSort (fun i j => scores.getD i 0 ≤ scores.getD j 0)
    (List.range scores.length)

/-- One per-text result dictionary of `classify_embedding_method`. -/
structure RankedResult where
  sequence : String
  labels : List String
  scores : List Rat
deriving DecidableEq

/-- Embedding of `FastClassifier.classify_embedding_method`: per text, rank all
candidate labels by descending similarity score. -/
def classify_embedding_method (similarity : String → String → Rat) (texts : List String)
    (candidate_labels : List String) : List RankedResult :=
  texts.map fun text =>
    let scores := candidate_labels.map (similarity text)
    let sorted_indices := (argsort scores).reverse
    { sequence := text
      labels := sorted_indices.map fun idx => candidate_labels.getD idx ""
      scores := sorted_indices.map fun idx => scores.getD idx 0 }

lemma map_getD_range {α : Type} (l : List α) (d : α) :
    (List.range l.length).map (fun i => l.getD i d) = l := by
  induction l with
  | nil => rfl
  | cons a t ih =>
    simp only [List.length_cons, List.range_succ_eq_map, List.map_cons, List.map_map]
    refine congrArg (a :: ·) ?_
    have hcomp : ((fun i => (a :: t).getD i d) ∘ Nat.succ) = fun i => t.getD i d := by
      funext i
      simp [List.getD_cons_succ]
    rw [hcomp, ih]

lemma argsort_perm (scores : List Rat) : (argsort scores).Perm (List.range scores.length) :=
  List.perm_insertionSort _ _

lemma argsort_sorted (scores : List Rat) :
    (argsort scores).Pairwise (fun i j => scores.getD i 0 ≤ scores.getD j 0) := by
  haveI ht : IsTotal Nat (fun i j => scores.getD i 0 ≤ scores.getD j 0) :=
    ⟨fun a b => le_total _ _⟩
  haveI htr : IsTrans Nat (fun i j => scores.getD i 0 ≤ scores.getD j 0) :=
    ⟨fun a b c hab hbc => le_trans hab hbc⟩
  exact List.sorted_insertionSort _ _

/-- C5: every per-text result of the embedding-similarity classifier has
non-increasing scores, and its labels are a permutation of the input label set,
containing each label exactly once when the input labels have no duplicates. -/
theorem classify_rank_ordering (similarity : String → String → Rat) (texts : List String)
    (candidate_labels : List String) (hnd : candidate_labels.Nodup) (r : RankedResult)
    (hr : r ∈ classify_embedding_method similarity texts candidate_labels) :
    r.scores.Pairwise (fun a b => b ≤ a) ∧
    r.labels.Perm candidate_labels ∧
    (∀ lab ∈ candidate_labels, r.labels.count lab = 1) := by
  rcases List.mem_map.mp hr with ⟨text, _htext, rfl⟩
  dsimp only
  set scores := candidate_labels.map (similarity text) with hscores
  have hperm : ((argsort scores).reverse.map fun idx => candidate_labels.getD idx "").Perm
      candidate_labels := by
    have h1 : (argsort scores).reverse.Perm (List.range candidate_labels.length) := by
      have := ((argsort scores).reverse_perm).trans (argsort_perm scores)
      simpa [hscores] using this
    have h2 := h1.map fun idx => candidate_labels.getD idx ""
    rwa [map_getD_range] at h2
  refine ⟨?_, hperm, ?_⟩
  · rw [List.pairwise_map, List.pairwise_reverse]
    exact argsort_sorted scores
  · intro lab hlab
    rw [hperm.count_eq]
    exact List.count_eq_one_of_mem hnd hlab

/-- C5 witness: the theorem applied to a concrete classifier run with a concrete
similarity function over the spec scenario label set. -/
theorem classify_rank_ordering_witness :
    (["galaxy", "nebula", "star"] : List String).Nodup ∧
    (RankedResult.mk "A spiral galaxy of stars" ["galaxy", "nebula", "star"]
        [3, 2, 1]) ∈
      classify_embedding_method
        (fun _ lab => if lab = "galaxy" then (3 : Rat) else if lab = "nebula" then 2 else 1)
        ["A spiral galaxy of stars"] ["galaxy", "nebula", "star"] ∧
    ((RankedResult.mk "A spiral galaxy of stars" ["galaxy", "nebula", "star"]
        [3, 2, 1]).scores.Pairwise (fun a b => b ≤ a) ∧
      (RankedResult.mk "A spiral galaxy of stars" ["galaxy", "nebula", "star"]
        [3, 2, 1]).labels.Perm ["galaxy", "nebula", "star"] ∧
      (∀ lab ∈ (["galaxy", "nebula", "star"] : List String),
        (RankedResult.mk "A spiral galaxy of stars" ["galaxy", "nebula", "star"]
          [3, 2, 1]).labels.count lab = 1)) :=
  ⟨by decide, by decide,
    classify_rank_ordering
      (fun _ lab => if lab = "galaxy" then (3 : Rat) else if lab = "nebula" then 2 else 1)
      ["A spiral galaxy of stars"] ["galaxy", "nebula", "star"] (by decide) _ (by decide)⟩

/-! ## Embedding checkpointing and consolidation
(src/python/src/data_processing/generate_clip_categorized_data.py)

The embeddings directory is modelled as explicit functional state `EmbStore`:
per-type per-batch checkpoint files, per-batch index files, consolidated
per-type output files, and the consolidated index file `embedding_indices.npy`.
A field value `none` means the file does not exist; deleting a file sets `none`.
Embedding rows are lists of rationals and `np.vstack`/row concatenation is
`List.flatten`. -/

/-- The in-memory accumulation buffer `EmbeddingBatch`: five parallel lists
(Python appends at the end). -/
structure EmbeddingBatch where
  title_embeddings : List (List Rat)
  text_image_embeddings : List (List Rat)
  image_embeddings : List (List Rat)
  multimodal_embeddings : List (List Rat)
  indices : List Nat

/-- Embedding of `EmbeddingBatch.__init__`. -/
def EmbeddingBatch.empty : EmbeddingBatch := ⟨[], [], [], [], []⟩

/-- Embedding of `EmbeddingBatch.add`. -/
def EmbeddingBatch.add (b : EmbeddingBatch) (title_emb text_emb image_emb multimodal_emb :
    List Rat) (idx : Nat) : EmbeddingBatch :=
  { title_embeddings := b.title_embeddings ++ [title_emb]
    text_image_embeddings := b.text_image_embeddings ++ [text_emb]
    image_embeddings := b.image_embeddings ++ [image_emb]
    multimodal_embeddings := b.multimodal_embeddings ++ [multimodal_emb]
    indices := b.indices ++ [idx] }

/-- Embedding of `EmbeddingBatch.clear`. -/
def EmbeddingBatch.clear (_ : EmbeddingBatch) : EmbeddingBatch := EmbeddingBatch.empty

/-- The five lists of the buffer are aligned: equal lengths throughout. -/
def EmbeddingBatch.aligned (b : EmbeddingBatch) : Prop :=
  b.title_embeddings.length = b.indices.length ∧
  b.text_image_embeddings.length = b.indices.length ∧
  b.image_embeddings.length = b.indices.length ∧
  b.multimodal_embeddings.length = b.indices.length

lemma EmbeddingBatch.aligned_empty : EmbeddingBatch.empty.aligned := by
  refine ⟨rfl, rfl, rfl, rfl⟩

lemma EmbeddingBatch.aligned_add (b : EmbeddingBatch) (h : b.aligned)
    (t te ie me : List Rat) (idx : Nat) : (b.add t te ie me idx).aligned := by
  obtain ⟨h1, h2, h3, h4⟩ := h
  refine ⟨?_, ?_, ?_, ?_⟩ <;> simp [EmbeddingBatch.add, h1, h2, h3, h4]

lemma EmbeddingBatch.aligned_clear (b : EmbeddingBatch) : b.clear.aligned :=
  EmbeddingBatch.aligned_empty

/-- The four embedding kinds, in the order the consolidation loop visits them. -/
def embedding_types : List String :=
  ["title_embeddings", "text_image_embeddings", "image_embeddings", "multimodal_embeddings"]

/-- Functional model of the `EMBEDDINGS_DIR` filesystem state. -/
structure EmbStore where
  embBatch : String → Nat → Option (List (List Rat))
  indicesBatch : Nat → Option (List Nat)
  consolidated : String → Option (List (List Rat))
  embeddingIndices : Option (List Nat)

/-- Embedding of `save_embeddings_batch`: returns the directory unchanged when
the buffer is empty, otherwise writes the four stacked per-type batch files and
the indices batch file for `batch_num`. -/
def save_embeddings_batch (embedding_batch : EmbeddingBatch) (batch_num : Nat)
    (store : EmbStore) : EmbStore :=
  if embedding_batch.indices.length = 0 then store
  else
    { store with
      embBatch := fun t n =>
        if n = batch_num then
          if t = "title_embeddings" then some embedding_batch.title_embeddings
          else if t = "text_image_embeddings" then some embedding_batch.text_image_embeddings
          else if t = "image_embeddings" then some embedding_batch.image_embeddings
          else if t = "multimodal_embeddings" then some embedding_batch.multimodal_embeddings
          else store.embBatch t n
        else store.embBatch t n
      indicesBatch := fun n =>
        if n = batch_num then some embedding_batch.indices else store.indicesBatch n }

/-- The local `all_embeddings` of one iteration of the `emb_type` loop in
`consolidate_embedding_batches`: the loaded arrays of the batches whose
embeddings file AND indices file both exist, in batch-number order. -/
def allEmbeddingsOf (store : EmbStore) (total_batches : Nat) (emb_type : String) :
    List (List (List Rat)) :=
  (List.range total_batches).filterMap fun batch_num =>
    if (store.indicesBatch batch_num).isSome then store.embBatch emb_type batch_num else none

/-- The local `all_indices` of one iteration of the `emb_type` loop: extended
only when `emb_type == "title_embeddings"`, over the same qualifying batches. -/
def allIndicesOf (store : EmbStore) (total_batches : Nat) (emb_type : String) : List Nat :=
  if emb_type = "title_embeddings" then
    ((List.range total_batches).filterMap fun batch_num =>
      if (store.embBatch emb_type batch_num).isSome then store.indicesBatch batch_num
      else none).flatten
  else []

/-- One iteration of the `for emb_type in embedding_types` loop: consolidate the
present batches of this kind (if any) and delete this kind's batch files; the
returned list is the iteration's final `all_indices` binding. -/
def consolidateType (store : EmbStore) (total_batches : Nat) (emb_type : String) :
    EmbStore × List Nat :=
  if (allEmbeddingsOf store total_batches emb_type).isEmpty then
    (store, allIndicesOf store total_batches emb_type)
  else
    ({ store with
        consolidated := fun t =>
          if t = emb_type then some (allEmbeddingsOf store total_batches emb_type).flatten
          else store.consolidated t
        embBatch := fun t n =>
          if t = emb_type ∧ n < total_batches then none else store.embBatch t n },
      allIndicesOf store total_batches emb_type)

/-- The `emb_type` loop: thread the store through the four kinds; the second
component is the value the variable `all_indices` holds after the loop, i.e.
the LAST iteration's binding (earlier bindings are discarded on re-entry). -/
def consolidateAll (total_batches : Nat) (ts : List String) (store : EmbStore)
    (acc : List Nat) : EmbStore × List Nat :=
  ts.foldl (fun a emb_type => consolidateType a.1 total_batches emb_type) (store, acc)

/-- Embedding of `consolidate_embedding_batches`: run the per-type loop, then
save `embedding_indices.npy` only if the surviving `all_indices` is non-empty,
then delete all per-batch indices files. -/
def consolidate_embedding_batches (store : EmbStore) (total_batches : Nat) : EmbStore :=
  let step := consolidateAll total_batches embedding_types store []
  let store2 :=
    if step.2.isEmpty then step.1
    else { step.1 with embeddingIndices := some step.2 }
  { store2 with
    indicesBatch := fun n => if n < total_batches then none else store2.indicesBatch n }

/-- Spec-side description: the batch numbers below `total_batches` whose
embeddings and indices checkpoint files are both present. -/
def presentBatches (store : EmbStore) (emb_type : String) (total_batches : Nat) : List Nat :=
  (List.range total_batches).filter fun n =>
    (store.embBatch emb_type n).isSome && (store.indicesBatch n).isSome

/-- Spec-side description: the concatenation, in batch-number order, of the
present checkpoint arrays of one kind. -/
def consolidatedRows (store : EmbStore) (emb_type : String) (total_batches : Nat) :
    List (List Rat) :=
  ((presentBatches store emb_type total_batches).map fun n =>
    (store.embBatch emb_type n).getD []).flatten

lemma allEmbeddingsOf_eq (store : EmbStore) (N : Nat) (t : String) :
    allEmbeddingsOf store N t =
      (presentBatches store t N).map fun n => (store.embBatch t n).getD [] := by
  unfold allEmbeddingsOf presentBatches
  induction List.range N with
  | nil => rfl
  | cons m l ih =>
    cases h1 : store.embBatch t m <;> cases h2 : store.indicesBatch m <;>
      simp [List.filterMap_cons, List.filter_cons, h1, h2, ih]

lemma allEmbeddingsOf_empty_iff (store : EmbStore) (N : Nat) (t : String) :
    allEmbeddingsOf store N t = [] ↔ presentBatches store t N = [] := by
  rw [allEmbeddingsOf_eq]
  simp

lemma ct_indicesBatch (store : EmbStore) (N : Nat) (t : String) :
    (consolidateType store N t).1.indicesBatch = store.indicesBatch := by
  unfold consolidateType
  split <;> rfl

lemma ct_embBatch_ne (store : EmbStore) (N : Nat) (t t2 : String) (h : t2 ≠ t) :
    (consolidateType store N t).1.embBatch t2 = store.embBatch t2 := by
  unfold consolidateType
  split
  · rfl
  · funext n
    show (if t2 = t ∧ n < N then none else store.embBatch t2 n) = store.embBatch t2 n
    exact if_neg fun hc => h hc.1

lemma ct_consolidated_ne (store : EmbStore) (N : Nat) (t t2 : String) (h : t2 ≠ t) :
    (consolidateType store N t).1.consolidated t2 = store.consolidated t2 := by
  unfold consolidateType
  split
  · rfl
  · show (if t2 = t then some (allEmbeddingsOf store N t).flatten else store.consolidated t2) =
      store.consolidated t2
    exact if_neg h

lemma ct_consolidated_self (store : EmbStore) (N : Nat) (t : String)
    (h : presentBatches store t N ≠ []) :
    (consolidateType store N t).1.consolidated t = some (consolidatedRows store t N) := by
  have hne : ¬((allEmbeddingsOf store N t).isEmpty = true) := by
    rw [List.isEmpty_iff, allEmbeddingsOf_empty_iff]
    exact h
  unfold consolidateType
  rw [if_neg hne]
  show (if t = t then some (allEmbeddingsOf store N t).flatten else store.consolidated t) =
    some (consolidatedRows store t N)
  rw [if_pos rfl, allEmbeddingsOf_eq]
  rfl

lemma ct_embBatch_self (store : EmbStore) (N : Nat) (t : String)
    (h : presentBatches store t N ≠ []) (n : Nat) :
    (consolidateType store N t).1.embBatch t n = if n < N then none else store.embBatch t n := by
  have hne : ¬((allEmbeddingsOf store N t).isEmpty = true) := by
    rw [List.isEmpty_iff, allEmbeddingsOf_empty_iff]
    exact h
  unfold consolidateType
  rw [if_neg hne]
  show (if t = t ∧ n < N then none else store.embBatch t n) =
    if n < N then none else store.embBatch t n
  simp

lemma ct_self_absent (store : EmbStore) (N : Nat) (t : String)
    (h : presentBatches store t N = []) :
    (consolidateType store N t).1.consolidated t = store.consolidated t ∧
    (consolidateType store N t).1.embBatch t = store.embBatch t := by
  have hemp : (allEmbeddingsOf store N t).isEmpty = true := by
    rw [List.isEmpty_iff, allEmbeddingsOf_empty_iff]
    exact h
  unfold consolidateType
  rw [if_pos hemp]
  exact ⟨rfl, rfl⟩

lemma ct_presentBatches_ne (store : EmbStore) (N : Nat) (t t2 : String) (h : t2 ≠ t) (M : Nat) :
    presentBatches (consolidateType store N t).1 t2 M = presentBatches store t2 M := by
  unfold presentBatches
  simp only [ct_embBatch_ne store N t t2 h, ct_indicesBatch store N t]

lemma ct_consolidatedRows_ne (store : EmbStore) (N : Nat) (t t2 : String) (h : t2 ≠ t) (M : Nat) :
    consolidatedRows (consolidateType store N t).1 t2 M = consolidatedRows store t2 M := by
  unfold consolidatedRows
  simp only [ct_presentBatches_ne store N t t2 h, ct_embBatch_ne store N t t2 h]

/-- Behaviour of the per-type loop over any duplicate-free list of kind names:
kinds not visited keep their files; a visited kind with at least one fully
present checkpoint gets the concatenation of its present checkpoints, in order,
as its consolidated file, and its batch files below `N` deleted; a visited kind
with no present checkpoint is left untouched.  The per-batch indices files are
not touched by this loop. -/
lemma consolidateAll_spec (N : Nat) :
    ∀ (ts : List String) (store : EmbStore) (acc : List Nat), ts.Nodup →
      (∀ t2, t2 ∉ ts →
        (consolidateAll N ts store acc).1.embBatch t2 = store.embBatch t2 ∧
        (consolidateAll N ts store acc).1.consolidated t2 = store.consolidated t2) ∧
      ((consolidateAll N ts store acc).1.indicesBatch = store.indicesBatch) ∧
      (∀ t2 ∈ ts, presentBatches store t2 N ≠ [] →
        (consolidateAll N ts store acc).1.consolidated t2 = some (consolidatedRows store t2 N) ∧
        ∀ n, (consolidateAll N ts store acc).1.embBatch t2 n =
          if n < N then none else store.embBatch t2 n) ∧
      (∀ t2 ∈ ts, presentBatches store t2 N = [] →
        (consolidateAll N ts store acc).1.consolidated t2 = store.consolidated t2 ∧
        (consolidateAll N ts store acc).1.embBatch t2 = store.embBatch t2) := by
  intro ts
  induction ts with
  | nil =>
    intro store acc _
    exact ⟨fun t2 _ => ⟨rfl, rfl⟩, rfl, fun t2 h => absurd h (List.not_mem_nil t2),
      fun t2 h => absurd h (List.not_mem_nil t2)⟩
  | cons t ts ih =>
    intro store acc hnd
    have hnt : t ∉ ts := (List.nodup_cons.mp hnd).1
    have hnd2 : ts.Nodup := (List.nodup_cons.mp hnd).2
    have hfold : consolidateAll N (t :: ts) store acc =
        consolidateAll N ts (consolidateType store N t).1 (consolidateType store N t).2 := rfl
    obtain ⟨ihOut, ihInd, ihPos, ihNeg⟩ :=
      ih (consolidateType store N t).1 (consolidateType store N t).2 hnd2
    rw [hfold]
    refine ⟨?_, ?_, ?_, ?_⟩
    · intro t2 ht2
      have h2t : t2 ≠ t := fun he => ht2 (he ▸ List.mem_cons_self t (t :: ts).tail)
      have h2ts : t2 ∉ ts := fun he => ht2 (List.mem_cons_of_mem t he)
      obtain ⟨he, hc⟩ := ihOut t2 h2ts
      exact ⟨he.trans (ct_embBatch_ne store N t t2 h2t),
        hc.trans (ct_consolidated_ne store N t t2 h2t)⟩
    · exact ihInd.trans (ct_indicesBatch store N t)
    · intro t2 ht2 hpres
      rcases List.mem_cons.mp ht2 with rfl | hmem
      · obtain ⟨he, hc⟩ := ihOut t2 hnt
        refine ⟨hc.trans (ct_consolidated_self store N t2 hpres), fun n => ?_⟩
        have := congrFun he n
        rw [this, ct_embBatch_self store N t2 hpres]
      · have h2t : t2 ≠ t := fun he => hnt (he ▸ hmem)
        have hpres2 : presentBatches (consolidateType store N t).1 t2 N ≠ [] := by
          rwa [ct_presentBatches_ne store N t t2 h2t]
        obtain ⟨hc, he⟩ := ihPos t2 hmem hpres2
        refine ⟨hc.trans ?_, fun n => ?_⟩
        · rw [ct_consolidatedRows_ne store N t t2 h2t]
        · rw [he n, ct_embBatch_ne store N t t2 h2t]
    · intro t2 ht2 hpres
      rcases List.mem_cons.mp ht2 with rfl | hmem
      · obtain ⟨he, hc⟩ := ihOut t2 hnt
        obtain ⟨hc2, he2⟩ := ct_self_absent store N t2 hpres
        exact ⟨hc.trans hc2, he.trans he2⟩
      · have h2t : t2 ≠ t := fun he => hnt (he ▸ hmem)
        have hpres2 : presentBatches (consolidateType store N t).1 t2 N = [] := by
          rwa [ct_presentBatches_ne store N t t2 h2t]
        obtain ⟨hc, he⟩ := ihNeg t2 hmem hpres2
        exact ⟨hc.trans (ct_consolidated_ne store N t t2 h2t),
          he.trans (ct_embBatch_ne store N t t2 h2t)⟩

lemma consolidate_consolidated_eq (store : EmbStore) (N : Nat) :
    (consolidate_embedding_batches store N).consolidated =
      (consolidateAll N embedding_types store []).1.consolidated := by
  unfold consolidate_embedding_batches
  dsimp only
  split <;> rfl

lemma consolidate_embBatch_eq (store : EmbStore) (N : Nat) :
    (consolidate_embedding_batches store N).embBatch =
      (consolidateAll N embedding_types store []).1.embBatch := by
  unfold consolidate_embedding_batches
  dsimp only
  split <;> rfl

lemma consolidate_indicesBatch_lt (store : EmbStore) (N : Nat) (n : Nat) (hn : n < N) :
    (consolidate_embedding_batches store N).indicesBatch n = none := by
  unfold consolidate_embedding_batches
  dsimp only
  split
  · rfl
  · rename_i h
    exact absurd hn h

/-- C2: when checkpoints `0..N-1` all exist (embeddings of every kind and
indices), consolidation produces for each embedding kind a single output whose
rows are exactly the concatenation of the checkpoint arrays in checkpoint-number
order, and afterwards every per-batch checkpoint file — embeddings and indices —
has been deleted. -/
theorem consolidation_completeness (store : EmbStore) (N : Nat) (hN : 0 < N)
    (chunk : String → Nat → List (List Rat)) (ind : Nat → List Nat)
    (hemb : ∀ t ∈ embedding_types, ∀ n < N, store.embBatch t n = some (chunk t n))
    (hind : ∀ n < N, store.indicesBatch n = some (ind n)) :
    (∀ t ∈ embedding_types,
      (consolidate_embedding_batches store N).consolidated t =
        some ((List.range N).map (chunk t)).flatten ∧
      ∀ n < N, (consolidate_embedding_batches store N).embBatch t n = none) ∧
    (∀ n < N, (consolidate_embedding_batches store N).indicesBatch n = none) := by
  have hnd : embedding_types.Nodup := by decide
  obtain ⟨_, _, hPos, _⟩ := consolidateAll_spec N embedding_types store [] hnd
  refine ⟨?_, fun n hn => consolidate_indicesBatch_lt store N n hn⟩
  intro t ht
  have hpb : presentBatches store t N = List.range N := by
    unfold presentBatches
    apply List.filter_eq_self.mpr
    intro n hn
    have hn2 : n < N := List.mem_range.mp hn
    rw [hemb t ht n hn2, hind n hn2]
    rfl
  have hne : presentBatches store t N ≠ [] := by
    rw [hpb]
    intro h
    have := List.range_eq_nil.mp h
    omega
  have hrows : consolidatedRows store t N = ((List.range N).map (chunk t)).flatten := by
    unfold consolidatedRows
    rw [hpb]
    congr 1
    apply List.map_congr_left
    intro n hn
    rw [hemb t ht n (List.mem_range.mp hn)]
    rfl
  obtain ⟨hc, he⟩ := hPos t ht hne
  constructor
  · rw [congrFun (consolidate_consolidated_eq store N) t, hc, hrows]
  · intro n hn
    rw [congrFun (congrFun (consolidate_embBatch_eq store N) t) n, he n, if_pos hn]

/-- Concrete two-checkpoint directory, fully present, for the C2 witness. -/
def storeC2 : EmbStore :=
  ⟨fun _ n => if n < 2 then some [[(n : Rat)]] else none,
   fun n => if n < 2 then some [n] else none,
   fun _ => none, none⟩

/-- C2 witness: the consolidation-completeness theorem applied to a concrete
directory holding checkpoints 0 and 1 for every kind. -/
theorem consolidation_completeness_witness :
    (0 < 2) ∧
    ((∀ t ∈ embedding_types,
      (consolidate_embedding_batches storeC2 2).consolidated t =
        some ((List.range 2).map (fun n => [[(n : Rat)]])).flatten ∧
      ∀ n < 2, (consolidate_embedding_batches storeC2 2).embBatch t n = none) ∧
    (∀ n < 2, (consolidate_embedding_batches storeC2 2).indicesBatch n = none)) :=
  ⟨by decide,
    consolidation_completeness storeC2 2 (by decide) (fun _ n => [[(n : Rat)]]) (fun n => [n])
      (by decide) (by decide)⟩

/-- Concrete directory with a single, complete checkpoint 0, for C1. -/
def storeC1 : EmbStore :=
  ⟨fun _ n => if n = 0 then some [[1]] else none,
   fun n => if n = 0 then some [7] else none,
   fun _ => none, none⟩

/-- C1: evaluation of consolidation on a run with one complete checkpoint.  The
four consolidated embedding arrays are produced (each with the same row count),
but the consolidated index array `embedding_indices.npy` is NOT: the variable
`all_indices` is re-initialized on every iteration of the `emb_type` loop and
only extended in the `title_embeddings` iteration, so after the loop it holds
the last (`multimodal_embeddings`) iteration's empty list and the guarded save
`if all_indices:` at the end never fires.  The alignment invariant between the
four consolidated arrays and the index array therefore cannot hold for the
consolidated artifacts — the code contradicts the intent of its own
`np.save(..., embedding_indices.npy, ...)` line, which is dead code. -/
theorem consolidation_omits_index_array :
    (consolidate_embedding_batches storeC1 1).consolidated "title_embeddings" = some [[1]] ∧
    (consolidate_embedding_batches storeC1 1).consolidated "text_image_embeddings" = some [[1]] ∧
    (consolidate_embedding_batches storeC1 1).consolidated "image_embeddings" = some [[1]] ∧
    (consolidate_embedding_batches storeC1 1).consolidated "multimodal_embeddings" = some [[1]] ∧
    (consolidate_embedding_batches storeC1 1).embeddingIndices = none := by
  decide

/-- Concrete directory with an internal gap: checkpoint 0 entirely missing
while checkpoint 1 (< N = 2) is fully present.  Used for C4. -/
def storeC4 : EmbStore :=
  ⟨fun _ n => if n = 1 then some [[9]] else none,
   fun n => if n = 1 then some [3] else none,
   fun _ => none, none⟩

/-- C4 counterexample: with checkpoint 0 missing and checkpoint 1 present
(an internal gap, `k = 0 < N - 1 = 1`), consolidation completes and produces
output holding only checkpoint 1's rows — the gap's rows are silently omitted.
The source has no error or warning path in `consolidate_embedding_batches`
(its only conditional is the silent `if os.path.exists(...)` skip), so the
claimed error-or-warning on internal gaps does not exist. -/
theorem consolidation_silent_internal_gap :
    storeC4.embBatch "title_embeddings" 0 = none ∧
    storeC4.indicesBatch 0 = none ∧
    storeC4.embBatch "title_embeddings" 1 = some [[9]] ∧
    (consolidate_embedding_batches storeC4 2).consolidated "title_embeddings" = some [[9]] := by
  decide

/-- C4 (amended): consolidation tolerates any missing checkpoint — trailing or
internal — by silently skipping it: for each embedding kind it writes the
concatenation, in batch-number order, of exactly the present checkpoints
(leaving the consolidated file untouched when none is present), and signals no
error or warning on an internal gap. -/
theorem consolidation_skips_missing_batches (store : EmbStore) (N : Nat) (t : String)
    (ht : t ∈ embedding_types) :
    (presentBatches store t N ≠ [] →
      (consolidate_embedding_batches store N).consolidated t =
        some (consolidatedRows store t N)) ∧
    (presentBatches store t N = [] →
      (consolidate_embedding_batches store N).consolidated t = store.consolidated t) := by
  have hnd : embedding_types.Nodup := by decide
  obtain ⟨_, _, hPos, hNeg⟩ := consolidateAll_spec N embedding_types store [] hnd
  constructor
  · intro hne
    rw [congrFun (consolidate_consolidated_eq store N) t]
    exact (hPos t ht hne).1
  · intro hemp
    rw [congrFun (consolidate_consolidated_eq store N) t]
    exact (hNeg t ht hemp).1

/-- C4 witness: the amended theorem applied to the gapped directory. -/
theorem consolidation_skips_missing_batches_witness :
    ("title_embeddings" ∈ embedding_types) ∧
    ((presentBatches storeC4 "title_embeddings" 2 ≠ [] →
      (consolidate_embedding_batches storeC4 2).consolidated "title_embeddings" =
        some (consolidatedRows storeC4 "title_embeddings" 2)) ∧
    (presentBatches storeC4 "title_embeddings" 2 = [] →
      (consolidate_embedding_batches storeC4 2).consolidated "title_embeddings" =
        storeC4.consolidated "title_embeddings")) :=
  ⟨by decide, consolidation_skips_missing_batches storeC4 2 "title_embeddings" (by decide)⟩

/-! ## Resumable master-dataset builder and rate limiter (src/scripts/process_apod.py)

The fetcher's HTTP side is modelled by a response script `resp : Nat → Nat × String`
(status code and body of the i-th request issued); sleeping is not modelled, but
the sleep durations computed by `handle_429` are recorded.  Delays are rationals
(`BASE_DELAY = 1.0`, `MAX_DELAY = 300`). -/

def BASE_DELAY : Rat := 1

def MAX_DELAY : Rat := 300

def RETRY_ATTEMPTS : Nat := 5

structure RateLimiter where
  base_delay : Rat
  max_delay : Rat
  consecutive_429s : Nat

/-- Embedding of `RateLimiter.handle_429`: increment the consecutive-429 counter
and compute the sleep `min(base_delay * 2 ** consecutive_429s, max_delay)` with
the incremented counter. -/
def RateLimiter.handle_429 (rl : RateLimiter) : RateLimiter × Rat :=
  ({ rl with consecutive_429s := rl.consecutive_429s + 1 },
    min (rl.base_delay * 2 ^ (rl.consecutive_429s + 1)) rl.max_delay)

/-- Embedding of `RateLimiter.reset_429_counter`. -/
def RateLimiter.reset_429_counter (rl : RateLimiter) : RateLimiter :=
  { rl with consecutive_429s := 0 }

/-- Observable outcome of one `fetch_apod_data` call: number of requests issued,
the 429 backoff sleeps computed by `handle_429` in order, the final limiter
state, and the returned payload (`none` for failure/404/exhausted retries). -/
structure FetchTrace where
  requests : Nat
  delays429 : List Rat
  limiter : RateLimiter
  result : Option String

/-- Embedding of the retry loop of `fetch_apod_data`, by remaining attempts:
200 returns the parsed payload after resetting the counter, 429 backs off via
`handle_429` and retries, 404 returns `none` without retrying, any other status
retries (with a plain `2 ** attempt` sleep, not recorded here as the claim is
about the 429 intervals). -/
def fetchLoop (resp : Nat → Nat × String) (attempt : Nat) (rl : RateLimiter) :
    Nat → FetchTrace
  | 0 => ⟨0, [], rl, none⟩
  | fuel + 1 =>
    let r := resp attempt
    if r.1 = 200 then ⟨1, [], rl.reset_429_counter, some r.2⟩
    else if r.1 = 429 then
      let h := rl.handle_429
      let rest := fetchLoop resp (attempt + 1) h.1 fuel
      ⟨rest.requests + 1, h.2 :: rest.delays429, rest.limiter, rest.result⟩
    else if r.1 = 404 then ⟨1, [], rl, none⟩
    else
      let rest := fetchLoop resp (attempt + 1) rl fuel
      ⟨rest.requests + 1, rest.delays429, rest.limiter, rest.result⟩

/-- Embedding of `fetch_apod_data`: up to `RETRY_ATTEMPTS` requests. -/
def fetch_apod_data (resp : Nat → Nat × String) (rl : RateLimiter) : FetchTrace :=
  fetchLoop resp 0 rl RETRY_ATTEMPTS

/-- Response script of the C9 scenario: three 429s, then a 200. -/
def respC9 : Nat → Nat × String := fun i => if i < 3 then (429, "") else (200, "payload")

/-- C9: on 3 consecutive 429 responses followed by a 200, `fetch_apod_data`
issues exactly 4 requests; the computed backoff waits are
`min(1 * 2 ** c, 300)` for `c = 1, 2, 3`, i.e. `[2, 4, 8]`, strictly increasing
(in particular the intervals between the first three requests, 2 and 4, are);
after the 200 the consecutive-failure counter is 0 and the payload is returned. -/
theorem rate_limiter_backoff_scenario :
    (fetch_apod_data respC9 (RateLimiter.mk BASE_DELAY MAX_DELAY 0)).requests = 4 ∧
    (fetch_apod_data respC9 (RateLimiter.mk BASE_DELAY MAX_DELAY 0)).delays429 = [2, 4, 8] ∧
    List.Chain' (fun a b => a < b)
      (fetch_apod_data respC9 (RateLimiter.mk BASE_DELAY MAX_DELAY 0)).delays429 ∧
    (fetch_apod_data respC9 (RateLimiter.mk BASE_DELAY MAX_DELAY 0)).limiter.consecutive_429s
      = 0 ∧
    (fetch_apod_data respC9 (RateLimiter.mk BASE_DELAY MAX_DELAY 0)).result = some "payload" := by
  refine ⟨rfl, ?_, ?_, rfl, rfl⟩
  · show [min (BASE_DELAY * 2 ^ (0 + 1)) MAX_DELAY,
        min (BASE_DELAY * 2 ^ (0 + 1 + 1)) MAX_DELAY,
        min (BASE_DELAY * 2 ^ (0 + 1 + 1 + 1)) MAX_DELAY] = [2, 4, 8]
    norm_num [BASE_DELAY, MAX_DELAY, min_def]
  · show List.Chain' (fun a b => a < b)
        [min (BASE_DELAY * 2 ^ (0 + 1)) MAX_DELAY,
          min (BASE_DELAY * 2 ^ (0 + 1 + 1)) MAX_DELAY,
          min (BASE_DELAY * 2 ^ (0 + 1 + 1 + 1)) MAX_DELAY]
    norm_num [BASE_DELAY, MAX_DELAY, min_def, List.chain'_cons, List.chain'_singleton]

/-- One row of the master table.  Only the `date` key matters to resumability;
the remaining API fields are abstracted into `payload`. -/
structure ApodRow where
  date : String
  payload : String
deriving DecidableEq

/-- Embedding of `get_existing_dates`: the dates of the rows already in the
output file, skipping rows with an empty date (`if row.get('date')`).  Python
builds a set; a list with membership queries is an equivalent model. -/
def get_existing_dates (file : List ApodRow) : List String :=
  (file.filter fun r => r.date != "").map ApodRow.date

/-- Embedding of the `dates_to_process` computation of `create_master_dataset`:
dates of the range not already present in the output file. -/
def dates_to_process (all_dates : List String) (file : List ApodRow) : List String :=
  all_dates.filter fun d => !((get_existing_dates file).contains d)

/-- Embedding of `create_master_dataset` restricted to its observable effect on
the master table: `all_dates` abstracts the chronological date range
(`daterange` + `strftime`), `available d` abstracts the outcome of
`fetch_apod_data` for date `d` (`none` = failure/404, recorded and skipped);
fetched rows are appended in order (batched writes concatenate). -/
def create_master_dataset (all_dates : List String) (available : String → Option ApodRow)
    (file : List ApodRow) : List ApodRow :=
  file ++ (dates_to_process all_dates file).filterMap available

/-- C6 counterexample: with a one-date range whose date has no data available
(e.g. a 404), the second run's `dates_to_process` is NOT empty — it still holds
that date — even though the second run adds zero rows.  The claim's asserted
reason (emptiness of the second run's to-process set) is false. -/
theorem second_run_dates_to_process_not_empty :
    dates_to_process ["1995-06-16"]
        (create_master_dataset ["1995-06-16"] (fun _ => none) []) = ["1995-06-16"] ∧
    create_master_dataset ["1995-06-16"] (fun _ => none)
        (create_master_dataset ["1995-06-16"] (fun _ => none) []) =
      create_master_dataset ["1995-06-16"] (fun _ => none) [] := by
  decide

lemma get_existing_dates_append (a b : List ApodRow) :
    get_existing_dates (a ++ b) = get_existing_dates a ++ get_existing_dates b := by
  unfold get_existing_dates
  rw [List.filter_append, List.map_append]

/-- C6 (amended): a second run over the same range with the same availability
adds zero new rows and leaves the master table unchanged — every date in the
second run's to-process set is one with no data available, so it contributes no
row; that set is empty only when the first run fetched every date in the range. -/
theorem create_master_dataset_idempotent (all_dates : List String)
    (available : String → Option ApodRow) (file : List ApodRow)
    (hdate : ∀ d r, available d = some r → r.date = d)
    (hblank : ∀ d ∈ all_dates, d ≠ "") :
    (dates_to_process all_dates (create_master_dataset all_dates available file)).filterMap
        available = [] ∧
    create_master_dataset all_dates available
        (create_master_dataset all_dates available file) =
      create_master_dataset all_dates available file := by
  have hmain : (dates_to_process all_dates
      (create_master_dataset all_dates available file)).filterMap available = [] := by
    rw [List.filterMap_eq_nil_iff]
    intro d hd
    obtain ⟨hdall, hdnot⟩ := List.mem_filter.mp hd
    by_contra hav
    obtain ⟨r, hr⟩ := Option.ne_none_iff_exists.mp hav
    have hrd : r.date = d := hdate d r hr.symm
    have hdd : d ≠ "" := hblank d hdall
    have hmem : d ∈ get_existing_dates (create_master_dataset all_dates available file) := by
      unfold create_master_dataset
      rw [get_existing_dates_append]
      by_cases hex : d ∈ get_existing_dates file
      · exact List.mem_append_left _ hex
      · have hdtp : d ∈ dates_to_process all_dates file := by
          unfold dates_to_process
          refine List.mem_filter.mpr ⟨hdall, ?_⟩
          simp [List.contains, hex]
        have hrmem : r ∈ (dates_to_process all_dates file).filterMap available :=
          List.mem_filterMap.mpr ⟨d, hdtp, hr.symm⟩
        refine List.mem_append_right _ ?_
        unfold get_existing_dates
        refine List.mem_map.mpr ⟨r, ?_, hrd⟩
        refine List.mem_filter.mpr ⟨hrmem, ?_⟩
        simp [hrd, hdd]
    have hcont : (get_existing_dates (create_master_dataset all_dates available file)).contains d
        = true := List.elem_eq_true_of_mem hmem
    rw [hcont] at hdnot
    simp at hdnot
  refine ⟨hmain, ?_⟩
  show create_master_dataset all_dates available file ++ _ = _
  rw [hmain, List.append_nil]

/-- C6 witness: the amended idempotence applied to a concrete two-date range
with every date available. -/
theorem create_master_dataset_idempotent_witness :
    (dates_to_process ["1995-06-16", "1995-06-17"]
        (create_master_dataset ["1995-06-16", "1995-06-17"]
          (fun d => some (ApodRow.mk d "ok")) [])).filterMap
        (fun d => some (ApodRow.mk d "ok")) = [] ∧
    create_master_dataset ["1995-06-16", "1995-06-17"] (fun d => some (ApodRow.mk d "ok"))
        (create_master_dataset ["1995-06-16", "1995-06-17"]
          (fun d => some (ApodRow.mk d "ok")) []) =
      create_master_dataset ["1995-06-16", "1995-06-17"]
        (fun d => some (ApodRow.mk d "ok")) [] :=
  create_master_dataset_idempotent ["1995-06-16", "1995-06-17"]
    (fun d => some (ApodRow.mk d "ok")) []
    (fun d r h => by
      have h2 := Option.some.inj h
      subst h2
      rfl)
    (by decide)

/-! ## Categorized output table
(src/python/src/data_processing/generate_clip_categorized_data.py, lines 309-416)

Only the columns the output logic reads are modelled per master row.  The
predicate `hasLocalImage` abstracts the validation scan (`os.path.exists` on the
derived local path), `decodes` abstracts per-item embedding success (image
decode failure and the caught batch-level processing error both drop the item
from `results`), and `predict` abstracts the CLIP classifier's top prediction
and confidence. -/

structure Row where
  date : String
  title : String
  media_type : String
  url : Option String
deriving DecidableEq

structure CatRow where
  row : Row
  predicted_category : String
  confidence_score : Rat
deriving DecidableEq

/-- Embedding of the master-table filter: `media_type == 'image'` with
non-null `url`. -/
def df_images (df : List Row) : List Row :=
  df.filter fun r => r.media_type == "image" && r.url.isSome

/-- Embedding of the in-memory `results` list: successfully embedded validated
rows, in master order, each with its prediction; then the rows whose local
image was missing at validation, appended with the sentinel category and zero
confidence. -/
def pipeline_results (df : List Row) (hasLocalImage decodes : Row → Bool)
    (predict : Row → String × Rat) : List CatRow :=
  (((df_images df).filter hasLocalImage).filter decodes).map
    (fun r => ⟨r, (predict r).1, (predict r).2⟩) ++
  ((df_images df).filter fun r => !hasLocalImage r).map
    (fun r => ⟨r, "Skipped_Image_Not_Found", 0⟩)

/-- Embedding of the ordering pass writing `results_ordered`: for each master
row in order, the FIRST element of `results` with the same `date`
(`next((r for r in results if r['date'] == row['date']), None)`), dropping the
row when there is none. -/
def results_ordered (df : List Row) (hasLocalImage decodes : Row → Bool)
    (predict : Row → String × Rat) : List CatRow :=
  df.filterMap fun row =>
    (pipeline_results df hasLocalImage decodes predict).find? fun res =>
      res.row.date == row.date

/-- C3 counterexample: the categorized output does not have one row per
master-table row.  A master table holding a single video row yields an empty
output (video rows never enter `results`, so the date-match finds nothing), and
a master table holding a single image row whose image fails to decode also
yields an empty output (the row is dropped from the batch, and the
skipped-entries loop only covers rows missing at validation time). -/
theorem categorized_output_misses_master_rows :
    results_ordered [Row.mk "2020-01-01" "t" "video" (some "u")]
        (fun _ => true) (fun _ => true) (fun _ => ("Galaxy", 1)) = [] ∧
    results_ordered [Row.mk "2020-01-02" "t2" "image" (some "u")]
        (fun _ => true) (fun _ => false) (fun _ => ("Galaxy", 1)) = [] := by
  decide

lemma find_none_of_date_not_mem (tl : List Row) (p : Row → Bool) (mk : Row → CatRow)
    (hmk : ∀ r, (mk r).row.date = r.date) (d : String) (hd : d ∉ tl.map Row.date) :
    ((tl.filter p).map mk).find? (fun res => res.row.date == d) = none := by
  rw [List.find?_eq_none]
  intro x hx
  rcases List.mem_map.mp hx with ⟨r2, hr2, rfl⟩
  intro hbeq
  apply hd
  have hr2d : r2.date = d := by
    rw [← hmk r2]
    exact beq_iff_eq.mp hbeq
  exact hr2d ▸ List.mem_map_of_mem Row.date (List.mem_of_mem_filter hr2)

lemma find_filter_map_date (p : Row → Bool) (mk : Row → CatRow)
    (hmk : ∀ r, (mk r).row.date = r.date) :
    ∀ (df : List Row), (df.map Row.date).Nodup → ∀ r ∈ df,
      ((df.filter p).map mk).find? (fun res => res.row.date == r.date) =
        if p r then some (mk r) else none := by
  intro df
  induction df with
  | nil => intro _ r hr; exact absurd hr (List.not_mem_nil r)
  | cons a tl ih =>
    intro hnd r hr
    have hand : a.date ∉ tl.map Row.date ∧ (tl.map Row.date).Nodup := by
      rw [List.map_cons, List.nodup_cons] at hnd
      exact hnd
    rcases List.mem_cons.mp hr with rfl | hrtl
    · by_cases hpa : p r
      · simp only [List.filter_cons, hpa, if_true, List.map_cons]
        have hcond : ((fun res => res.row.date == r.date) (mk r)) = true := by
          simp [hmk r]
        exact List.find?_cons_of_pos _ hcond
      · simp only [List.filter_cons, hpa, Bool.false_eq_true, if_false]
        exact find_none_of_date_not_mem tl p mk hmk r.date hand.1
    · have hne : a.date ≠ r.date := fun he =>
        hand.1 (he ▸ List.mem_map_of_mem Row.date hrtl)
      rw [List.filter_cons]
      by_cases hpa : p a
      · simp only [hpa, if_true, List.map_cons]
        rw [List.find?_cons_of_neg]
        · exact ih hand.2 r hrtl
        · simp only [hmk a]
          simp [hne]
      · simp only [hpa, Bool.false_eq_true, if_false]
        exact ih hand.2 r hrtl

/-- C3 (amended): under duplicate-free master dates, the categorized output has
exactly one row, in master-table order, for each master row that is an image
row with non-null url and was either missing at validation time (sentinel
`Skipped_Image_Not_Found`, confidence 0) or successfully embedded (predicted
category); non-image rows, null-url rows, and validated rows dropped by a
decode/batch failure are omitted from the output. -/
theorem categorized_row_correspondence (df : List Row) (hasLocalImage decodes : Row → Bool)
    (predict : Row → String × Rat) (hnd : (df.map Row.date).Nodup) :
    results_ordered df hasLocalImage decodes predict =
      df.filterMap fun r =>
        if r.media_type == "image" && r.url.isSome then
          if !hasLocalImage r then some (CatRow.mk r "Skipped_Image_Not_Found" 0)
          else if decodes r then some (CatRow.mk r (predict r).1 (predict r).2)
          else none
        else none := by
  unfold results_ordered
  apply List.filterMap_congr
  intro r hr
  unfold pipeline_results df_images
  simp only [List.filter_filter]
  rw [List.find?_append]
  rw [find_filter_map_date _ _ (fun r2 => rfl) df hnd r hr,
    find_filter_map_date _ _ (fun r2 => rfl) df hnd r hr]
  by_cases hmt : r.media_type = "image"
  · by_cases hurl : r.url.isSome = true
    · by_cases hloc : hasLocalImage r = true
      · by_cases hdec : decodes r = true
        · simp [hmt, hurl, hloc, hdec, Option.or]
        · simp [hmt, hurl, hloc, hdec, Option.or]
      · simp [hmt, hurl, hloc, Option.or]
    · simp [hmt, hurl, Option.or]
  · simp [hmt, Option.or]

/-- C3 witness: the amended correspondence applied to a concrete master table
mixing a processed image row, a video row, a null-url image row, a
decode-failure image row and a validation-missing image row. -/
theorem categorized_row_correspondence_witness :
    ((([Row.mk "d1" "t1" "image" (some "u"), Row.mk "d2" "t2" "video" (some "u"),
        Row.mk "d3" "t3" "image" none, Row.mk "d4" "t4" "image" (some "u"),
        Row.mk "d5" "t5" "image" (some "u")] : List Row).map Row.date).Nodup) ∧
    results_ordered
        [Row.mk "d1" "t1" "image" (some "u"), Row.mk "d2" "t2" "video" (some "u"),
          Row.mk "d3" "t3" "image" none, Row.mk "d4" "t4" "image" (some "u"),
          Row.mk "d5" "t5" "image" (some "u")]
        (fun r => r.date != "d5") (fun r => r.date != "d4") (fun _ => ("Galaxy", 1)) =
      ([Row.mk "d1" "t1" "image" (some "u"), Row.mk "d2" "t2" "video" (some "u"),
          Row.mk "d3" "t3" "image" none, Row.mk "d4" "t4" "image" (some "u"),
          Row.mk "d5" "t5" "image" (some "u")] : List Row).filterMap fun r =>
        if r.media_type == "image" && r.url.isSome then
          if !(fun r => r.date != "d5") r then some (CatRow.mk r "Skipped_Image_Not_Found" 0)
          else if (fun r => r.date != "d4") r then
            some (CatRow.mk r ((fun _ => ("Galaxy", (1 : Rat))) r).1
              ((fun _ => ("Galaxy", (1 : Rat))) r).2)
          else none
        else none :=
  ⟨by decide,
    categorized_row_correspondence
      [Row.mk "d1" "t1" "image" (some "u"), Row.mk "d2" "t2" "video" (some "u"),
        Row.mk "d3" "t3" "image" none, Row.mk "d4" "t4" "image" (some "u"),
        Row.mk "d5" "t5" "image" (some "u")]
      (fun r => r.date != "d5") (fun r => r.date != "d4") (fun _ => ("Galaxy", 1))
      (by decide)⟩

end Apod
